import Mathlib

/-!
Verification of the background job execution and streaming-log subsystem of
BEAR-HUB (`src/utils.py`): the LogLine normalizer (`_strip_ansi`,
`_normalize_linebreaks`), the stream reader (`_async_read_stream`), the job
launcher (`_async_exec`), and the per-namespace runner state machine
(`start_async_runner_ns`, `drain_log_queue_ns`, `check_status_and_finalize_ns`).

Strings are modelled as `List Char`.  Python's regular-expression based
transformations are embedded as explicit left-to-right scanners; each scanner
carries a fuel argument (the wrappers supply `length + 1`, which always
suffices since every recursive call strictly shrinks the input) so that all
definitions compute in the kernel.
-/

namespace BearHub

/-- Python `str` whitespace predicate restricted to the ASCII range: the
characters matched by `\s` and stripped by `str.strip()` / `str.rstrip()`. -/
def pyIsSpace (c : Char) : Bool :=
  c = ' ' || c = '\t' || c = '\n' || c = '\r' || c = '\x0b' || c = '\x0c'

/-- Python `s.rstrip()`: remove trailing whitespace. -/
def pyRstrip (l : List Char) : List Char :=
  (l.reverse.dropWhile pyIsSpace).reverse

/-- Python `s.strip()`: remove leading and trailing whitespace. -/
def pyStrip (l : List Char) : List Char :=
  pyRstrip (l.dropWhile pyIsSpace)

/-- Python `s.split("\n")`: split on every newline, keeping empty parts
(`"".split("\n") == [""]`). -/
def splitOnNl : List Char → List (List Char)
  | [] => [[]]
  | c :: rest =>
    if c = '\n' then [] :: splitOnNl rest
    else
      match splitOnNl rest with
      | [] => [[c]]
      | p :: tl => (c :: p) :: tl

/-- The last `n` elements of a list (the whole list when `n ≥ length`);
this is Python's `l[-n:]` for `n ≥ 1`. -/
def lastN (n : Nat) (l : List α) : List α :=
  (l.reverse.take n).reverse

/-- Python's `l[-n:]` slice for a natural `n`, including the `n = 0` corner
case where `l[-0:]` is `l[0:]`, i.e. the whole list. -/
def pyLastSlice (l : List α) (n : Nat) : List α :=
  if n = 0 then l else lastN n l

/-! ## ANSI stripping: `ANSI_ESCAPE`, `_strip_ansi`.
The source regex is `ESC` `[`, then zero or more parameter bytes 0x30–0x3F,
then zero or more intermediate bytes 0x20–0x2F, then one final byte
0x40–0x7E. -/

/-- Parameter bytes `[0-?]` (0x30–0x3F) of a CSI sequence. -/
def isCsiParam (c : Char) : Bool := 0x30 ≤ c.toNat && c.toNat ≤ 0x3F

/-- Intermediate bytes (0x20–0x2F) of a CSI sequence. -/
def isCsiInter (c : Char) : Bool := 0x20 ≤ c.toNat && c.toNat ≤ 0x2F

/-- Final bytes `[@-~]` (0x40–0x7E) of a CSI sequence. -/
def isCsiFinal (c : Char) : Bool := 0x40 ≤ c.toNat && c.toNat ≤ 0x7E

/-- Match the tail of `ANSI_ESCAPE` after `ESC [`: greedily take parameter
bytes, then intermediate bytes, then one final byte.  (The three character
classes are pairwise disjoint, so the greedy scan is exactly the regex
engine's backtracking search.)  Returns the remainder after the match. -/
def matchCSITail (cs : List Char) : Option (List Char) :=
  match (cs.dropWhile isCsiParam).dropWhile isCsiInter with
  | c :: r3 => if isCsiFinal c then some r3 else none
  | [] => none

/-- Match a full `ANSI_ESCAPE` occurrence given the text following an `ESC`
character: it must continue with `[` and then a CSI tail. -/
def matchCsiAfterEsc (cs : List Char) : Option (List Char) :=
  match cs with
  | c :: rest => if c = '[' then matchCSITail rest else none
  | [] => none

/-- Fueled scanner for `ANSI_ESCAPE.sub("", s)`: scan left to right; at each
`ESC` try to match a CSI sequence and drop it, otherwise keep the character.
Fuel `length + 1` always suffices. -/
def stripAnsiF : Nat → List Char → List Char
  | 0, _ => []
  | _ + 1, [] => []
  | f + 1, c :: rest =>
    if c = '\x1b' then
      match matchCsiAfterEsc rest with
      | some r => stripAnsiF f r
      | none => c :: stripAnsiF f rest
    else c :: stripAnsiF f rest

/-- `_strip_ansi`: remove ANSI CSI escape sequences from a string. -/
def strip_ansi (l : List Char) : List Char :=
  stripAnsiF (l.length + 1) l

/-- Decidable check that every `ESC` in the input begins a substring matched
by `ANSI_ESCAPE` (used to state the corrected form of the escape-stripping
claim).  Same recursion structure and fuel as `stripAnsiF`. -/
def escAllCSIF : Nat → List Char → Bool
  | 0, _ => false
  | _ + 1, [] => true
  | f + 1, c :: rest =>
    if c = '\x1b' then
      match matchCsiAfterEsc rest with
      | some r => escAllCSIF f r
      | none => false
    else escAllCSIF f rest

/-- Every `ESC` in `l` starts a CSI sequence matched by `ANSI_ESCAPE`. -/
def escAllCSI (l : List Char) : Bool :=
  escAllCSIF (l.length + 1) l

/-! ## The three re-splitting heuristics of `_normalize_linebreaks` -/

/-- Match `re` pattern `\s+-\s+\[` at the start of `cs` (whitespace run,
dash, whitespace run, opening bracket); returns the remainder after the
match.  The character classes of each step are disjoint from their
successors, so greedy runs need no backtracking. -/
def matchDashBracket (cs : List Char) : Option (List Char) :=
  match cs with
  | c :: _ =>
    if pyIsSpace c then
      match cs.dropWhile pyIsSpace with
      | d :: rest2 =>
        if d = '-' then
          match rest2 with
          | e :: _ =>
            if pyIsSpace e then
              match rest2.dropWhile pyIsSpace with
              | g :: rest3 => if g = '[' then some rest3 else none
              | [] => none
            else none
          | [] => none
        else none
      | [] => none
    else none
  | [] => none

/-- Fueled scanner for `re.sub(r"\s+-\s+\[", "\n[", chunk)`. -/
def subDashBracketF : Nat → List Char → List Char
  | 0, _ => []
  | _ + 1, [] => []
  | f + 1, c :: rest =>
    match matchDashBracket (c :: rest) with
    | some r => '\n' :: '[' :: subDashBracketF f r
    | none => c :: subDashBracketF f rest

/-- `re.sub(r"\s+-\s+\[", "\n[", chunk)`. -/
def subDashBracket (l : List Char) : List Char :=
  subDashBracketF (l.length + 1) l

/-- Drop a case-insensitively matching literal (given in lower case) from
the front of a string, or fail. -/
def dropCaseless : List Char → List Char → Option (List Char)
  | [], l => some l
  | p :: ps, c :: l => if c.toLower = p then dropCaseless ps l else none
  | _ :: _, [] => none

/-- Lookahead `(?=executor\s*>)` of the second heuristic, case-insensitive
on the literal `executor`. -/
def executorAhead (cs : List Char) : Bool :=
  match dropCaseless ['e', 'x', 'e', 'c', 'u', 't', 'o', 'r'] cs with
  | some rest =>
    match rest.dropWhile pyIsSpace with
    | c :: _ => c = '>'
    | [] => false
  | none => false

/-- Fueled scanner for positions `≥ 1` of
`re.sub(r"(?<!^)\s+(?=executor\s*>)", "\n", chunk, flags=re.IGNORECASE)`:
a maximal whitespace run followed by the lookahead collapses to one `\n`
(the lookahead is not consumed). -/
def subExecutorAuxF : Nat → List Char → List Char
  | 0, _ => []
  | _ + 1, [] => []
  | f + 1, c :: rest =>
    if pyIsSpace c then
      if executorAhead (rest.dropWhile pyIsSpace) then
        '\n' :: subExecutorAuxF f (rest.dropWhile pyIsSpace)
      else c :: subExecutorAuxF f rest
    else c :: subExecutorAuxF f rest

/-- `re.sub(r"(?<!^)\s+(?=executor\s*>)", "\n", chunk, flags=re.IGNORECASE)`:
the negative lookbehind `(?<!^)` means no match can start at position 0, so
the first character always survives and scanning starts at position 1. -/
def subExecutor (l : List Char) : List Char :=
  match l with
  | [] => []
  | c :: rest => c :: subExecutorAuxF (rest.length + 1) rest

/-- Fueled scanner for `re.sub(r"✔\s+(?=\[)", "✔\n", chunk)`; the `[` of the
lookahead is not consumed. -/
def subCheckmarkF : Nat → List Char → List Char
  | 0, _ => []
  | _ + 1, [] => []
  | f + 1, c :: rest =>
    if c = '✔' then
      match rest with
      | d :: _ =>
        if pyIsSpace d then
          match rest.dropWhile pyIsSpace with
          | g :: _ =>
            if g = '[' then '✔' :: '\n' :: subCheckmarkF f (rest.dropWhile pyIsSpace)
            else c :: subCheckmarkF f rest
          | [] => c :: subCheckmarkF f rest
        else c :: subCheckmarkF f rest
      | [] => c :: subCheckmarkF f rest
    else c :: subCheckmarkF f rest

/-- `re.sub(r"✔\s+(?=\[)", "✔\n", chunk)`. -/
def subCheckmark (l : List Char) : List Char :=
  subCheckmarkF (l.length + 1) l

/-- `_normalize_linebreaks`: clean and normalize a log output chunk into a
list of displayable lines, exactly mirroring the Python source:
empty-chunk early return; strip ANSI; `\r` → `\n`; the three re-splitting
substitutions; split on `\n`; drop whitespace-only parts; rstrip each part. -/
def normalize_linebreaks (chunk : List Char) : List (List Char) :=
  if chunk = [] then []
  else
    let c1 := (strip_ansi chunk).map (fun c => if c = '\r' then '\n' else c)
    let c2 := subDashBracket c1
    let c3 := subExecutor c2
    let c4 := subCheckmark c3
    ((splitOnNl c4).filter (fun p => !(pyStrip p).isEmpty)).map pyRstrip

/-! ## Stream reader and job launcher (`_async_read_stream`, `_async_exec`)

The worker runs on a background thread; its observable effects are the items
it puts on the log queue and the status queue.  The embedding models one
worker execution as a function of the abstract spawn outcome (either the
exception raised by `asyncio.create_subprocess_exec` or the spawned
process's stream contents and final exit code) together with scheduling
parameters: for each stream reader, the number of lines it reads before it
observes `stop_event` and exits early (a number at least the stream length
models reading to end-of-stream). -/

/-- A status queue item: the worker puts `("error", message)` when spawning
raised, or `("rc", returncode)` after the process exited. -/
inductive StatusEvent where
  | error (msg : String)
  | rc (code : Int)
deriving DecidableEq, Repr

/-- The observable behaviour of a successfully spawned process: what its two
pipes deliver line-by-line, and what `proc.wait()` finally returns (after a
natural exit, or after `terminate`/`kill` on cancellation). -/
structure ProcSpec where
  stdoutChunks : List (List Char)
  stderrChunks : List (List Char)
  exitCode : Int
deriving DecidableEq, Repr

/-- Outcome of `asyncio.create_subprocess_exec`: an exception message, or a
running process. -/
inductive SpawnOutcome where
  | spawnError (msg : String)
  | spawned (p : ProcSpec)
deriving DecidableEq, Repr

/-- `_async_read_stream`: read lines until end-of-stream, normalize each and
enqueue the resulting sub-lines in order; after each line, exit early if
`stop_event` is set.  `stopAfter` is the number of raw lines processed
before the reader stops (any value `≥ chunks.length` means the full
stream was read). -/
def async_read_stream (chunks : List (List Char)) (stopAfter : Nat) : List (List Char) :=
  ((chunks.take stopAfter).map normalize_linebreaks).flatten

/-- Everything one worker execution puts on the two queues: the status
events in order, and the lines each reader enqueued. -/
structure WorkerOutput where
  status : List StatusEvent
  outLines : List (List Char)
  errLines : List (List Char)
deriving DecidableEq, Repr

/-- `_async_exec`: spawn the process; if spawning raises, put a single
`("error", "Failed to start process: " ++ e)` and return without starting
any reader.  Otherwise start both readers, run the wait loop (which
terminates/kills on `stop_event` or falls through on natural exit, posting
nothing), gather the readers, and put a single `("rc", rc)` with the value
of `proc.wait()`. -/
def async_exec (spawn : SpawnOutcome) (stopOut stopErr : Nat) : WorkerOutput :=
  match spawn with
  | SpawnOutcome.spawnError e =>
    { status := [StatusEvent.error ("Failed to start process: " ++ e)]
      outLines := []
      errLines := [] }
  | SpawnOutcome.spawned p =>
    let tOut := async_read_stream p.stdoutChunks stopOut
    let tErr := async_read_stream p.stderrChunks stopErr
    { status := [StatusEvent.rc p.exitCode]
      outLines := tOut
      errLines := tErr }

/-! ## Per-namespace runner state
(`start_async_runner_ns`, `drain_log_queue_ns`, `check_status_and_finalize_ns`)

The `st.session_state` entries for one namespace.  A field is `none` when
the key is absent (namespace never started) or was assigned Python `None`;
every guard in the source (`if not q`, `if not sq`) distinguishes exactly
these cases, since `Queue` objects are always truthy.  Queues are FIFO
lists with the head at the front. -/

structure RunState where
  running : Option Bool
  log_q : Option (List (List Char))
  status_q : Option (List StatusEvent)
  stop_event : Option Bool
  thread : Option Unit
  live_log : Option (List (List Char))
deriving DecidableEq, Repr

/-- `start_async_runner_ns`: create fresh queues, a fresh stop event and a
fresh thread, mark the namespace running and clear the live log.  The
source performs no check of the previous state: every prior handle is
overwritten unconditionally. -/
def start_async_runner_ns (_s : RunState) : RunState :=
  { running := some true
    log_q := some []
    status_q := some []
    stop_event := some false
    thread := some ()
    live_log := some [] }

/-- `request_stop_ns`: set the stop event if present and not already set. -/
def request_stop_ns (s : RunState) : RunState :=
  match s.stop_event with
  | some false => { s with stop_event := some true }
  | _ => s

/-- `drain_log_queue_ns`: if no log queue is stored for the namespace,
return immediately; otherwise pop up to `max_pull` items, append them to
the live log and truncate it with the Python slice `buf[-tail_limit:]`
(which, for `tail_limit = 0`, keeps the whole buffer), guarded by
`len(buf) > tail_limit`. -/
def drain_log_queue_ns (s : RunState) (tail_limit : Nat) (max_pull : Nat) : RunState :=
  match s.log_q with
  | none => s
  | some q =>
    let buf := s.live_log.getD []
    let pulled := q.take max_pull
    let buf1 := buf ++ pulled
    let buf2 := if tail_limit < buf1.length then pyLastSlice buf1 tail_limit else buf1
    { s with log_q := some (q.drop max_pull), live_log := some buf2 }

/-- What `check_status_and_finalize_ns` surfaces through `status_box`:
`success` is the `"Finished successfully."` message, `failure` carries the
error text shown otherwise. -/
inductive Report where
  | success
  | failure (msg : String)
deriving DecidableEq, Repr

/-- Return value and state change of one `check_status_and_finalize_ns`
call. -/
structure FinalizeResult where
  state : RunState
  finalized : Bool
  report : Option Report
deriving DecidableEq, Repr

/-- The `while True: sq.get_nowait()` loop: fold over all queued events,
accumulating `(finalized, msg, rc)`; an `("error", m)` event sets
`msg := m` and `rc := -1`, an `("rc", c)` event sets `rc := c`; each sets
`finalized`. -/
def drainStatus (q : List StatusEvent) : Bool × Option String × Option Int :=
  q.foldl
    (fun acc ev =>
      match ev with
      | StatusEvent.error m => (true, some m, some (-1))
      | StatusEvent.rc c => (true, acc.2.1, some c))
    (false, none, none)

/-- The f-string `f"Run finished with code {rc}. See the log below."`. -/
def rcMessage (rc : Option Int) : String :=
  "Run finished with code " ++ (match rc with
    | some c => toString c
    | none => "None") ++ ". See the log below."

/-- `check_status_and_finalize_ns`: if no status queue is stored, return
`False`; otherwise drain the status queue; if any event was found, set
`running := False`, drop the thread and stop-event references, and report
success exactly for `rc == 0`, failure (with `msg` or the generic
return-code message) otherwise. -/
def check_status_and_finalize_ns (s : RunState) : FinalizeResult :=
  match s.status_q with
  | none => { state := s, finalized := false, report := none }
  | some q =>
    let res := drainStatus q
    let s1 : RunState := { s with status_q := some [] }
    if res.1 then
      { state := { s1 with running := some false, thread := none, stop_event := none }
        finalized := true
        report := some (if res.2.2 = some 0 then Report.success
          else Report.failure (res.2.1.getD (rcMessage res.2.2))) }
    else
      { state := s1, finalized := false, report := none }

/-- A run-state with no keys stored: the namespace was never started. -/
def emptyRun : RunState :=
  { running := none, log_q := none, status_q := none
    stop_event := none, thread := none, live_log := none }

/-- One UI tick of the drain loop preceded by the stream readers enqueueing
`new` further lines: the queue grows at the back, then
`drain_log_queue_ns` runs. -/
def enqueueDrainStep (tail_limit max_pull : Nat) (s : RunState)
    (new : List (List Char)) : RunState :=
  drain_log_queue_ns { s with log_q := s.log_q.map (fun q => q ++ new) }
    tail_limit max_pull

/-- A whole polling history: start a fresh run, then for each element of
`steps` enqueue that batch of produced lines and drain once. -/
def drainHistory (tail_limit max_pull : Nat)
    (steps : List (List (List Char))) : RunState :=
  steps.foldl (enqueueDrainStep tail_limit max_pull) (start_async_runner_ns emptyRun)

/-! ## Concrete states and inputs used in witnesses and counterexamples -/

/-- A namespace whose job is still running and has produced some output. -/
def busyRun : RunState :=
  { running := some true, log_q := some [['o', 'l', 'd']], status_q := some []
    stop_event := some false, thread := some (), live_log := some [['o', 'l', 'd']] }

/-- A running namespace whose readers have produced two lines `a`, `b` that
are still queued, with the empty live log created by start. -/
def c3busy : RunState :=
  { running := some true, log_q := some [['a'], ['b']], status_q := some []
    stop_event := some false, thread := some (), live_log := some [] }

/-- A running namespace with one queued line and an empty live log. -/
def c3zero : RunState :=
  { running := some true, log_q := some [['a']], status_q := some []
    stop_event := some false, thread := some (), live_log := some [] }

/-- A namespace whose job just exited with code 3. -/
def c4done : RunState :=
  { running := some true, log_q := some [], status_q := some [StatusEvent.rc 3]
    stop_event := some false, thread := some (), live_log := some [['h', 'i']] }

/-- A namespace whose job just exited successfully. -/
def c5state : RunState :=
  { running := some true, log_q := some [], status_q := some [StatusEvent.rc 0]
    stop_event := some false, thread := some (), live_log := some [['o', 'k']] }

/-- A running namespace whose log queue was filled by one stream reader. -/
def c7state : RunState :=
  { running := some true, log_q := some (async_read_stream [['h', 'i', '\n']] 1)
    status_q := some [], stop_event := some false, thread := some ()
    live_log := some [] }

/-- A chunk containing an OSC escape sequence (`ESC ] ... BEL`), which is
not of the CSI shape matched by `ANSI_ESCAPE`. -/
def c9chunk : List Char := ['a', '\x1b', ']', '0', ';', 'T', '\x07', 'b']

/-- A chunk whose only escape sequence is a well-formed CSI color code. -/
def c9ok : List Char := ['a', '\x1b', '[', '3', '1', 'm', 'b']

/-! ## Helper lemmas about the string utilities -/

theorem mem_of_mem_dropWhile {p : Char → Bool} {l : List Char} {a : Char}
    (h : a ∈ l.dropWhile p) : a ∈ l :=
  (List.dropWhile_sublist p).subset h

theorem mem_pyRstrip {l : List Char} {a : Char} (h : a ∈ pyRstrip l) : a ∈ l := by
  unfold pyRstrip at h
  exact List.mem_reverse.mp (mem_of_mem_dropWhile (List.mem_reverse.mp h))

theorem forall_of_dropWhile_forall {p : Char → Bool} {l : List Char}
    (h : ∀ a ∈ l.dropWhile p, p a = true) : ∀ a ∈ l, p a = true := by
  intro a ha
  have hsplit : l.takeWhile p ++ l.dropWhile p = l := List.takeWhile_append_dropWhile p l
  rw [← hsplit] at ha
  rcases List.mem_append.mp ha with h1 | h2
  · exact List.mem_takeWhile_imp h1
  · exact h a h2

theorem pyRstrip_eq_nil_iff {l : List Char} :
    pyRstrip l = [] ↔ ∀ a ∈ l, pyIsSpace a = true := by
  unfold pyRstrip
  rw [List.reverse_eq_nil_iff, List.dropWhile_eq_nil_iff]
  constructor
  · intro h a ha
    exact h a (List.mem_reverse.mpr ha)
  · intro h a ha
    exact h a (List.mem_reverse.mp ha)

theorem pyStrip_eq_nil_iff {l : List Char} :
    pyStrip l = [] ↔ ∀ a ∈ l, pyIsSpace a = true := by
  unfold pyStrip
  rw [pyRstrip_eq_nil_iff]
  constructor
  · intro h
    exact forall_of_dropWhile_forall h
  · intro h a ha
    exact h a (mem_of_mem_dropWhile ha)

theorem exists_not_of_dropWhile {p : Char → Bool} :
    ∀ {l : List Char}, (∃ a ∈ l, p a = false) → ∃ a ∈ l.dropWhile p, p a = false := by
  intro l
  induction l with
  | nil =>
    rintro ⟨a, ha, _⟩
    cases ha
  | cons c t ih =>
    rintro ⟨a, ha, hpa⟩
    by_cases hc : p c = true
    · rw [List.dropWhile_cons, if_pos hc]
      apply ih
      rcases List.mem_cons.mp ha with rfl | hat
      · rw [hc] at hpa
        cases hpa
      · exact ⟨a, hat, hpa⟩
    · have hc' : p c = false := by simpa using hc
      rw [List.dropWhile_cons, if_neg (by simp [hc'])]
      exact ⟨c, List.mem_cons_self c t, hc'⟩

theorem exists_nonspace_pyRstrip {l : List Char}
    (h : ∃ a ∈ l, pyIsSpace a = false) : ∃ a ∈ pyRstrip l, pyIsSpace a = false := by
  unfold pyRstrip
  have h1 : ∃ a ∈ l.reverse, pyIsSpace a = false := by
    rcases h with ⟨a, ha, hpa⟩
    exact ⟨a, List.mem_reverse.mpr ha, hpa⟩
  rcases exists_not_of_dropWhile h1 with ⟨a, ha, hpa⟩
  exact ⟨a, List.mem_reverse.mpr ha, hpa⟩

theorem pyStrip_pyRstrip_ne_nil {l : List Char} (h : pyStrip l ≠ []) :
    pyStrip (pyRstrip l) ≠ [] := by
  have hex : ∃ a ∈ l, pyIsSpace a = false := by
    by_contra hc
    push_neg at hc
    refine h (pyStrip_eq_nil_iff.mpr ?_)
    intro a ha
    have := hc a ha
    simpa using this
  rcases exists_nonspace_pyRstrip hex with ⟨a, ha, hpa⟩
  intro hnil
  have := pyStrip_eq_nil_iff.mp hnil a ha
  rw [this] at hpa
  cases hpa

theorem splitOnNl_no_nl : ∀ (l : List Char), ∀ p ∈ splitOnNl l, '\n' ∉ p := by
  intro l
  induction l with
  | nil =>
    intro p hp
    simp [splitOnNl] at hp
    subst hp
    simp
  | cons c rest ih =>
    intro p hp
    by_cases hc : c = '\n'
    · subst hc
      simp only [splitOnNl, if_pos rfl] at hp
      rcases List.mem_cons.mp hp with rfl | h2
      · simp
      · exact ih p h2
    · simp only [splitOnNl, if_neg hc] at hp
      rcases hps : splitOnNl rest with _ | ⟨q, tl⟩
      · rw [hps] at hp
        simp at hp
        subst hp
        intro hmem
        rcases List.mem_singleton.mp hmem with rfl
        exact hc rfl
      · rw [hps] at hp
        rcases List.mem_cons.mp hp with rfl | h2
        · intro hmem
          rcases List.mem_cons.mp hmem with he | hq
          · exact hc he.symm
          · exact ih q (by rw [hps]; exact List.mem_cons_self q tl) hq
        · exact ih p (by rw [hps]; exact List.mem_cons_of_mem q h2)

theorem splitOnNl_subset : ∀ (l : List Char), ∀ p ∈ splitOnNl l, ∀ a ∈ p, a ∈ l := by
  intro l
  induction l with
  | nil =>
    intro p hp a ha
    simp [splitOnNl] at hp
    subst hp
    cases ha
  | cons c rest ih =>
    intro p hp a ha
    by_cases hc : c = '\n'
    · subst hc
      simp only [splitOnNl, if_pos rfl] at hp
      rcases List.mem_cons.mp hp with rfl | h2
      · cases ha
      · exact List.mem_cons_of_mem _ (ih p h2 a ha)
    · simp only [splitOnNl, if_neg hc] at hp
      rcases hps : splitOnNl rest with _ | ⟨q, tl⟩
      · rw [hps] at hp
        simp at hp
        subst hp
        rcases List.mem_singleton.mp ha with rfl
        exact List.mem_cons_self _ _
      · rw [hps] at hp
        rcases List.mem_cons.mp hp with rfl | h2
        · rcases List.mem_cons.mp ha with rfl | hq
          · exact List.mem_cons_self _ _
          · exact List.mem_cons_of_mem _
              (ih q (by rw [hps]; exact List.mem_cons_self q tl) a hq)
        · exact List.mem_cons_of_mem _
            (ih p (by rw [hps]; exact List.mem_cons_of_mem q h2) a ha)

theorem length_lastN (n : Nat) (l : List α) : (lastN n l).length = min n l.length := by
  unfold lastN
  rw [List.length_reverse, List.length_take, List.length_reverse]

theorem length_lastN_le (n : Nat) (l : List α) : (lastN n l).length ≤ n := by
  rw [length_lastN]
  exact Nat.min_le_left _ _

theorem lastN_of_length_le {n : Nat} {l : List α} (h : l.length ≤ n) : lastN n l = l := by
  unfold lastN
  rw [List.take_of_length_le (by rw [List.length_reverse]; exact h), List.reverse_reverse]

theorem lastN_append (n : Nat) (x y : List α) :
    lastN n (x ++ y) = lastN n (lastN n x ++ y) := by
  unfold lastN
  rw [List.reverse_append, List.reverse_append, List.reverse_reverse]
  congr 1
  rw [List.take_append_eq_append_take, List.take_append_eq_append_take]
  congr 1
  rw [List.take_take]
  congr 1
  exact (Nat.min_eq_left (Nat.sub_le _ _)).symm

theorem truncate_eq_pyLastSlice (t : Nat) (l : List α) :
    (if t < l.length then pyLastSlice l t else l) = pyLastSlice l t := by
  by_cases h : t < l.length
  · rw [if_pos h]
  · rw [if_neg h]
    unfold pyLastSlice
    by_cases ht : t = 0
    · rw [if_pos ht]
    · rw [if_neg ht, lastN_of_length_le (Nat.le_of_not_lt h)]

/-! ## Helper lemmas about the scanners -/

theorem matchCSITail_subset {cs r : List Char} (h : matchCSITail cs = some r) :
    ∀ a ∈ r, a ∈ cs := by
  unfold matchCSITail at h
  split at h
  · split at h
    · injection h with h
      subst h
      rename_i c r3 h2 _
      intro a ha
      have hmem : a ∈ (cs.dropWhile isCsiParam).dropWhile isCsiInter := by
        rw [h2]
        exact List.mem_cons_of_mem _ ha
      exact mem_of_mem_dropWhile (mem_of_mem_dropWhile hmem)
    · cases h
  · cases h

theorem matchCsiAfterEsc_subset {cs r : List Char} (h : matchCsiAfterEsc cs = some r) :
    ∀ a ∈ r, a ∈ cs := by
  cases cs with
  | nil => cases h
  | cons c rest =>
    simp only [matchCsiAfterEsc] at h
    by_cases hc : c = '['
    · rw [if_pos hc] at h
      intro a ha
      exact List.mem_cons_of_mem _ (matchCSITail_subset h a ha)
    · rw [if_neg hc] at h
      cases h

theorem matchDashBracket_subset {cs r : List Char} (h : matchDashBracket cs = some r) :
    ∀ a ∈ r, a ∈ cs := by
  cases cs with
  | nil => cases h
  | cons c cs0 =>
    simp only [matchDashBracket] at h
    repeat' split at h
    all_goals try exact Option.noConfusion h
    rename_i hsp x1 d hdash x2 e tl heq1 hspe x3 g rest3 heq2 hgb
    injection h with h
    subst h
    intro a ha
    have h1 : a ∈ e :: tl :=
      mem_of_mem_dropWhile (p := pyIsSpace)
        (by rw [heq2]; exact List.mem_cons_of_mem _ ha)
    have h2 : a ∈ (c :: cs0).dropWhile pyIsSpace := by
      rw [heq1]
      exact List.mem_cons_of_mem _ h1
    exact mem_of_mem_dropWhile h2

theorem mem_stripAnsiF : ∀ (f : Nat) (l : List Char) (a : Char),
    a ∈ stripAnsiF f l → a ∈ l := by
  intro f
  induction f with
  | zero =>
    intro l a h
    cases h
  | succ f ih =>
    intro l a h
    cases l with
    | nil => cases h
    | cons c rest =>
      by_cases hc : c = '\x1b'
      · rcases hm : matchCsiAfterEsc rest with _ | r
        · simp only [stripAnsiF, if_pos hc, hm] at h
          rcases List.mem_cons.mp h with rfl | h2
          · exact List.mem_cons_self _ _
          · exact List.mem_cons_of_mem _ (ih rest a h2)
        · simp only [stripAnsiF, if_pos hc, hm] at h
          exact List.mem_cons_of_mem _ (matchCsiAfterEsc_subset hm a (ih r a h))
      · simp only [stripAnsiF, if_neg hc] at h
        rcases List.mem_cons.mp h with rfl | h2
        · exact List.mem_cons_self _ _
        · exact List.mem_cons_of_mem _ (ih rest a h2)

theorem escAllCSIF_not_esc : ∀ (f : Nat) (l : List Char),
    escAllCSIF f l = true → '\x1b' ∉ stripAnsiF f l := by
  intro f
  induction f with
  | zero =>
    intro l _ h
    cases h
  | succ f ih =>
    intro l hw h
    cases l with
    | nil => cases h
    | cons c rest =>
      by_cases hc : c = '\x1b'
      · rcases hm : matchCsiAfterEsc rest with _ | r
        · simp only [escAllCSIF, if_pos hc, hm, Bool.false_eq_true] at hw
        · simp only [escAllCSIF, if_pos hc, hm] at hw
          simp only [stripAnsiF, if_pos hc, hm] at h
          exact ih r hw h
      · simp only [escAllCSIF, if_neg hc] at hw
        simp only [stripAnsiF, if_neg hc] at h
        rcases List.mem_cons.mp h with he | h2
        · exact hc he.symm
        · exact ih rest hw h2

theorem mem_subDashBracketF : ∀ (f : Nat) (l : List Char) (a : Char),
    a ∈ subDashBracketF f l → a ∈ l ∨ a = '\n' ∨ a = '[' := by
  intro f
  induction f with
  | zero =>
    intro l a h
    cases h
  | succ f ih =>
    intro l a h
    cases l with
    | nil => cases h
    | cons c rest =>
      rcases hm : matchDashBracket (c :: rest) with _ | r
      · simp only [subDashBracketF, hm] at h
        rcases List.mem_cons.mp h with rfl | h2
        · exact Or.inl (List.mem_cons_self _ _)
        · rcases ih rest a h2 with h3 | h3
          · exact Or.inl (List.mem_cons_of_mem _ h3)
          · exact Or.inr h3
      · simp only [subDashBracketF, hm] at h
        rcases List.mem_cons.mp h with rfl | h2
        · exact Or.inr (Or.inl rfl)
        · rcases List.mem_cons.mp h2 with rfl | h3
          · exact Or.inr (Or.inr rfl)
          · rcases ih r a h3 with h4 | h4
            · exact Or.inl (matchDashBracket_subset hm a h4)
            · exact Or.inr h4

theorem mem_subExecutorAuxF : ∀ (f : Nat) (l : List Char) (a : Char),
    a ∈ subExecutorAuxF f l → a ∈ l ∨ a = '\n' := by
  intro f
  induction f with
  | zero =>
    intro l a h
    cases h
  | succ f ih =>
    intro l a h
    cases l with
    | nil => cases h
    | cons c rest =>
      by_cases hc : pyIsSpace c = true
      · by_cases hx : executorAhead (rest.dropWhile pyIsSpace) = true
        · simp only [subExecutorAuxF, hc, hx, if_true] at h
          rcases List.mem_cons.mp h with rfl | h2
          · exact Or.inr rfl
          · rcases ih _ a h2 with h3 | h3
            · exact Or.inl (List.mem_cons_of_mem _ (mem_of_mem_dropWhile h3))
            · exact Or.inr h3
        · simp only [subExecutorAuxF, hc, hx] at h
          simp only [if_true, Bool.false_eq_true, if_false] at h
          rcases List.mem_cons.mp h with rfl | h2
          · exact Or.inl (List.mem_cons_self _ _)
          · rcases ih rest a h2 with h3 | h3
            · exact Or.inl (List.mem_cons_of_mem _ h3)
            · exact Or.inr h3
      · simp only [subExecutorAuxF, hc] at h
        simp only [Bool.false_eq_true, if_false] at h
        rcases List.mem_cons.mp h with rfl | h2
        · exact Or.inl (List.mem_cons_self _ _)
        · rcases ih rest a h2 with h3 | h3
          · exact Or.inl (List.mem_cons_of_mem _ h3)
          · exact Or.inr h3

theorem mem_subExecutor {l : List Char} {a : Char}
    (h : a ∈ subExecutor l) : a ∈ l ∨ a = '\n' := by
  cases l with
  | nil => cases h
  | cons c rest =>
    simp only [subExecutor] at h
    rcases List.mem_cons.mp h with rfl | h2
    · exact Or.inl (List.mem_cons_self _ _)
    · rcases mem_subExecutorAuxF _ rest a h2 with h3 | h3
      · exact Or.inl (List.mem_cons_of_mem _ h3)
      · exact Or.inr h3

theorem mem_subCheckmarkF : ∀ (f : Nat) (l : List Char) (a : Char),
    a ∈ subCheckmarkF f l → a ∈ l ∨ a = '\n' ∨ a = '✔' := by
  intro f
  induction f with
  | zero =>
    intro l a h
    cases h
  | succ f ih =>
    intro l a h
    cases l with
    | nil => cases h
    | cons c rest =>
      have keepCase : a ∈ c :: subCheckmarkF f rest → a ∈ c :: rest ∨ a = '\n' ∨ a = '✔' := by
        intro hk
        rcases List.mem_cons.mp hk with rfl | h2
        · exact Or.inl (List.mem_cons_self _ _)
        · rcases ih rest a h2 with h3 | h3
          · exact Or.inl (List.mem_cons_of_mem _ h3)
          · exact Or.inr h3
      by_cases hc : c = '✔'
      · cases rest with
        | nil =>
          simp only [subCheckmarkF, if_pos hc] at h
          exact keepCase h
        | cons d rest0 =>
          by_cases hd : pyIsSpace d = true
          · rcases hg : (d :: rest0).dropWhile pyIsSpace with _ | ⟨g, tail⟩
            · simp only [subCheckmarkF, if_pos hc, hd, if_true, hg] at h
              exact keepCase h
            · by_cases hgb : g = '['
              · simp only [subCheckmarkF, if_pos hc, hd, if_true, hg, if_pos hgb] at h
                rcases List.mem_cons.mp h with rfl | h2
                · exact Or.inr (Or.inr rfl)
                · rcases List.mem_cons.mp h2 with rfl | h3
                  · exact Or.inr (Or.inl rfl)
                  · rcases ih _ a h3 with h4 | h4
                    · refine Or.inl (List.mem_cons_of_mem _ ?_)
                      rw [← hg] at h4
                      exact mem_of_mem_dropWhile h4
                    · exact Or.inr h4
              · simp only [subCheckmarkF, if_pos hc, hd, if_true, hg, if_neg hgb] at h
                exact keepCase h
          · simp only [subCheckmarkF, if_pos hc, hd] at h
            simp only [Bool.false_eq_true, if_false] at h
            exact keepCase h
      · simp only [subCheckmarkF, if_neg hc] at h
        exact keepCase h

/-- No carriage return survives the whole substitution pipeline: the map
step replaces every `\r`, and the three substitutions only ever insert
`\n`, `[` and `✔`. -/
theorem no_cr_in_pipeline (chunk : List Char) :
    '\r' ∉ subCheckmark (subExecutor (subDashBracket
      ((strip_ansi chunk).map (fun c => if c = '\r' then '\n' else c)))) := by
  intro h
  rcases mem_subCheckmarkF _ _ _ h with h1 | h1 | h1
  · rcases mem_subExecutor h1 with h2 | h2
    · rcases mem_subDashBracketF _ _ _ h2 with h3 | h3 | h3
      · rcases List.mem_map.mp h3 with ⟨b, _, hfb⟩
        by_cases hb : b = '\r'
        · rw [if_pos hb] at hfb
          cases hfb
        · rw [if_neg hb] at hfb
          exact hb hfb
      · cases h3
      · cases h3
    · cases h2
  · cases h1
  · cases h1

/-- If the input has no `ESC` outside well-formed CSI sequences, then no
`ESC` survives the substitution pipeline. -/
theorem no_esc_in_pipeline {chunk : List Char} (hw : escAllCSI chunk = true) :
    '\x1b' ∉ subCheckmark (subExecutor (subDashBracket
      ((strip_ansi chunk).map (fun c => if c = '\r' then '\n' else c)))) := by
  intro h
  rcases mem_subCheckmarkF _ _ _ h with h1 | h1 | h1
  · rcases mem_subExecutor h1 with h2 | h2
    · rcases mem_subDashBracketF _ _ _ h2 with h3 | h3 | h3
      · rcases List.mem_map.mp h3 with ⟨b, hb, hfb⟩
        have hbesc : b = '\x1b' := by
          by_cases hbr : b = '\r'
          · rw [if_pos hbr] at hfb
            cases hfb
          · rw [if_neg hbr] at hfb
            exact hfb
        subst hbesc
        exact escAllCSIF_not_esc _ chunk hw hb
      · cases h3
      · cases h3
    · cases h2
  · cases h1
  · cases h1

/-! ## Helper lemmas about the runner state machine -/

/-- Finalize on a state whose status queue exists but is empty is a
complete no-op. -/
theorem finalize_emptyq (s : RunState) (h : s.status_q = some []) :
    check_status_and_finalize_ns s =
      { state := s, finalized := false, report := none } := by
  unfold check_status_and_finalize_ns
  cases s with
  | mk running log_q status_q stop_event thread live_log =>
    simp only at h
    subst h
    simp [drainStatus]

/-- Whatever the queue contents, the state after `check_status_and_finalize_ns`
always carries an (existing) empty status queue. -/
theorem finalize_state_emptyq (s : RunState) (q : List StatusEvent)
    (h : s.status_q = some q) :
    (check_status_and_finalize_ns s).state.status_q = some [] := by
  unfold check_status_and_finalize_ns
  rw [h]
  by_cases hr : (drainStatus q).1 = true
  · simp [hr]
  · simp [hr]

/-- Draining an empty queue into an empty live log leaves both empty,
however often it is repeated. -/
theorem drain_iter_empty (T M : Nat) :
    ∀ (n : Nat) (st : RunState), st.log_q = some [] → st.live_log = some [] →
      ((fun x => drain_log_queue_ns x T M)^[n] st).log_q = some [] ∧
      ((fun x => drain_log_queue_ns x T M)^[n] st).live_log = some [] := by
  intro n
  induction n with
  | zero =>
    intro st hl hv
    simpa using ⟨hl, hv⟩
  | succ n ih =>
    intro st hl hv
    rw [Function.iterate_succ_apply]
    apply ih
    · simp [drain_log_queue_ns, hl, hv]
    · simp [drain_log_queue_ns, hl, hv]

/-- Invariant of the enqueue-then-drain loop: the stored live log is always
the last `T` of the lines pulled so far, and pulled lines followed by the
remaining queue are exactly the lines produced so far (FIFO). -/
theorem drainHistory_invariant (T M : Nat) (hT : 1 ≤ T) :
    ∀ (steps : List (List (List Char))) (s : RunState)
      (pulled q : List (List Char)),
      s.log_q = some q → s.live_log = some (lastN T pulled) →
      ∃ pulled2 q2,
        (steps.foldl (enqueueDrainStep T M) s).log_q = some q2 ∧
        (steps.foldl (enqueueDrainStep T M) s).live_log = some (lastN T pulled2) ∧
        pulled2 ++ q2 = (pulled ++ q) ++ steps.flatten := by
  intro steps
  induction steps with
  | nil =>
    intro s pulled q hl hv
    exact ⟨pulled, q, by simpa using hl, by simpa using hv, by simp⟩
  | cons new rest ih =>
    intro s pulled q hl hv
    rw [List.foldl_cons]
    have hstep :
        (enqueueDrainStep T M s new).log_q = some ((q ++ new).drop M) ∧
        (enqueueDrainStep T M s new).live_log =
          some (lastN T (pulled ++ (q ++ new).take M)) := by
      unfold enqueueDrainStep drain_log_queue_ns
      simp only [hl, Option.map_some', hv]
      constructor
      · simp
      · simp only [Option.getD_some]
        rw [truncate_eq_pyLastSlice]
        unfold pyLastSlice
        rw [if_neg (by omega), ← lastN_append]
    rcases ih (enqueueDrainStep T M s new) (pulled ++ (q ++ new).take M)
        ((q ++ new).drop M) hstep.1 hstep.2 with ⟨pulled2, q2, h1, h2, h3⟩
    refine ⟨pulled2, q2, h1, h2, ?_⟩
    rw [h3]
    rw [List.append_assoc pulled, List.take_append_drop]
    simp [List.append_assoc]

/-! ## Claim theorems -/

/-- C1: for every run launched by the worker, exactly one terminal status
event is ever put on the status queue — a single `("error", message)` event
if spawning the process raises, otherwise a single `("rc", exitCode)` event
after the process exits; never zero and never two, whatever the
cancellation timing or reader scheduling. -/
theorem async_exec_posts_exactly_one_status :
    ∀ (spawn : SpawnOutcome) (stopOut stopErr : Nat),
      (async_exec spawn stopOut stopErr).status.length = 1 ∧
      (∀ m, spawn = SpawnOutcome.spawnError m →
        (async_exec spawn stopOut stopErr).status =
          [StatusEvent.error ("Failed to start process: " ++ m)]) ∧
      (∀ p, spawn = SpawnOutcome.spawned p →
        (async_exec spawn stopOut stopErr).status = [StatusEvent.rc p.exitCode]) := by
  intro spawn stopOut stopErr
  cases spawn <;> simp [async_exec]

/-- Witness for C1 at a concrete failed spawn. -/
theorem async_exec_posts_exactly_one_status_witness :
    (async_exec (SpawnOutcome.spawnError "boom") 3 4).status.length = 1 ∧
    (async_exec (SpawnOutcome.spawnError "boom") 3 4).status =
      [StatusEvent.error ("Failed to start process: " ++ "boom")] :=
  ⟨(async_exec_posts_exactly_one_status (SpawnOutcome.spawnError "boom") 3 4).1,
   (async_exec_posts_exactly_one_status (SpawnOutcome.spawnError "boom") 3 4).2.1
     "boom" rfl⟩

/-- C2 counterexample: calling start on a namespace whose handle has
`running == true` is not rejected — `start_async_runner_ns` has no error
path at all and silently replaces the busy handle with a fresh running
one, discarding the old queues and live log. -/
theorem start_overwrites_running_namespace_cex :
    busyRun.running = some true ∧
    start_async_runner_ns busyRun ≠ busyRun ∧
    start_async_runner_ns busyRun =
      { running := some true, log_q := some [], status_q := some []
        stop_event := some false, thread := some (), live_log := some [] } :=
  ⟨rfl, by decide, rfl⟩

/-- C2 amended: `start_async_runner_ns` performs no running check and never
rejects: for every prior state of the namespace, running or not, it
unconditionally installs a fresh running handle (fresh empty queues, fresh
unset stop event, empty live log).  Double-start prevention is left to the
call sites, which disable the start control while the running flag is set. -/
theorem start_always_installs_fresh_handle (s : RunState) :
    start_async_runner_ns s =
      { running := some true, log_q := some [], status_q := some []
        stop_event := some false, thread := some (), live_log := some [] } := rfl

/-- C3 counterexample: with `tailLimit = 1`, `maxPull = 1`, and two
produced lines `a`, `b` queued, one drain retains `[a]`, which is not the
most recent line produced (`[b]`); and with `tailLimit = 0` the Python
slice `buf[-0:]` never truncates, so after draining one line the live log
has length 1, violating `len(liveLog) ≤ T`. -/
theorem drain_tail_not_most_recent_cex :
    ((drain_log_queue_ns c3busy 1 1).live_log = some [['a']] ∧
      lastN 1 [['a'], ['b']] = [['b']] ∧
      (drain_log_queue_ns c3busy 1 1).live_log ≠ some (lastN 1 [['a'], ['b']])) ∧
    ¬ ((drain_log_queue_ns c3zero 0 500).live_log.getD []).length ≤ 0 := by
  decide

/-- C3 amended: for every `tailLimit = T ≥ 1` and every history of
produce-then-drain steps starting from the fresh handle, after the last
drain the live log is exactly the last `T` of the lines pulled from the
queue so far (hence `len(liveLog) ≤ T`), and the pulled lines followed by
the remaining queue are exactly the produced lines in order — so whenever
the queue has been drained empty, the live log holds the most recent `T`
lines produced (or all of them, if fewer).  For `T = 0` the truncation is
a no-op and the buffer is unbounded. -/
theorem drain_history_keeps_last_pulled (T M : Nat)
    (steps : List (List (List Char))) (hT : 1 ≤ T) :
    ∃ pulled q,
      (drainHistory T M steps).log_q = some q ∧
      (drainHistory T M steps).live_log = some (lastN T pulled) ∧
      pulled ++ q = steps.flatten ∧
      (lastN T pulled).length ≤ T ∧
      (q = [] → (drainHistory T M steps).live_log = some (lastN T steps.flatten)) := by
  rcases drainHistory_invariant T M hT steps (start_async_runner_ns emptyRun) [] []
      rfl (by simp [lastN, start_async_runner_ns]) with ⟨pulled, q, h1, h2, h3⟩
  simp only [List.nil_append] at h3
  refine ⟨pulled, q, h1, h2, h3, length_lastN_le _ _, ?_⟩
  intro hq
  subst hq
  rw [List.append_nil] at h3
  exact h3 ▸ h2

/-- Witness for C3 amended at a concrete drain history. -/
theorem drain_history_keeps_last_pulled_witness :
    1 ≤ 2 ∧
    ∃ pulled q,
      (drainHistory 2 1 [[['a'], ['b']], [], []]).log_q = some q ∧
      (drainHistory 2 1 [[['a'], ['b']], [], []]).live_log = some (lastN 2 pulled) ∧
      pulled ++ q = [[['a'], ['b']], [], []].flatten ∧
      (lastN 2 pulled).length ≤ 2 ∧
      (q = [] → (drainHistory 2 1 [[['a'], ['b']], [], []]).live_log =
        some (lastN 2 ([[['a'], ['b']], [], []] : List (List (List Char))).flatten)) :=
  ⟨by decide, drain_history_keeps_last_pulled 2 1 [[['a'], ['b']], [], []] (by decide)⟩

/-- C4: on the tick where finalize first observes the terminal event it
sets `running := false`, releases the worker thread (and stop event), and
reports success exactly when the exit code is 0; any non-zero exit code
and any launch failure (reported with its message) surface as failure. -/
theorem finalize_first_event_outcome (s : RunState) (ev : StatusEvent)
    (h : s.status_q = some [ev]) :
    (check_status_and_finalize_ns s).finalized = true ∧
    (check_status_and_finalize_ns s).state.running = some false ∧
    (check_status_and_finalize_ns s).state.thread = none ∧
    (check_status_and_finalize_ns s).state.stop_event = none ∧
    ((check_status_and_finalize_ns s).report = some Report.success ↔
      ev = StatusEvent.rc 0) ∧
    (∀ m, ev = StatusEvent.error m →
      (check_status_and_finalize_ns s).report = some (Report.failure m)) := by
  cases ev with
  | error m =>
    simp [check_status_and_finalize_ns, h, drainStatus]
  | rc c =>
    by_cases hc : c = 0
    · subst hc
      simp [check_status_and_finalize_ns, h, drainStatus]
    · simp [check_status_and_finalize_ns, h, drainStatus, hc]

/-- Witness for C4 at a job that exited with code 3. -/
theorem finalize_first_event_outcome_witness :
    c4done.status_q = some [StatusEvent.rc 3] ∧
    ((check_status_and_finalize_ns c4done).finalized = true ∧
     (check_status_and_finalize_ns c4done).state.running = some false ∧
     (check_status_and_finalize_ns c4done).state.thread = none ∧
     (check_status_and_finalize_ns c4done).state.stop_event = none ∧
     ((check_status_and_finalize_ns c4done).report = some Report.success ↔
       StatusEvent.rc 3 = StatusEvent.rc 0) ∧
     (∀ m, StatusEvent.rc 3 = StatusEvent.error m →
       (check_status_and_finalize_ns c4done).report = some (Report.failure m))) :=
  ⟨rfl, finalize_first_event_outcome c4done (StatusEvent.rc 3) rfl⟩

/-- C5: finalize is idempotent — once a run has been finalized, the stored
status queue is empty, and every later finalize call finds it empty,
reports nothing, returns `False` and leaves the whole state (running flag,
worker reference, stop event, live log) exactly unchanged. -/
theorem finalize_idempotent (s : RunState)
    (h : (check_status_and_finalize_ns s).finalized = true) :
    (check_status_and_finalize_ns s).state.status_q = some [] ∧
    check_status_and_finalize_ns ((check_status_and_finalize_ns s).state) =
      { state := (check_status_and_finalize_ns s).state
        finalized := false
        report := none } := by
  cases hsq : s.status_q with
  | none =>
    exact absurd h (by simp [check_status_and_finalize_ns, hsq])
  | some q =>
    have h1 := finalize_state_emptyq s q hsq
    exact ⟨h1, finalize_emptyq _ h1⟩

/-- Witness for C5 at a job that exited successfully. -/
theorem finalize_idempotent_witness :
    (check_status_and_finalize_ns c5state).finalized = true ∧
    ((check_status_and_finalize_ns c5state).state.status_q = some [] ∧
     check_status_and_finalize_ns ((check_status_and_finalize_ns c5state).state) =
       { state := (check_status_and_finalize_ns c5state).state
         finalized := false
         report := none }) :=
  ⟨by decide, finalize_idempotent c5state (by decide)⟩

/-- C6: if spawning fails, the worker posts the launch failure and returns
without starting either stream reader, so the log queue never receives a
line and the live log of that namespace stays empty after any number of
drains. -/
theorem spawn_failure_no_logs (m : String) (stopOut stopErr : Nat)
    (s : RunState) (n T M : Nat) :
    async_exec (SpawnOutcome.spawnError m) stopOut stopErr =
      { status := [StatusEvent.error ("Failed to start process: " ++ m)]
        outLines := [], errLines := [] } ∧
    ((fun st => drain_log_queue_ns st T M)^[n] (start_async_runner_ns s)).log_q =
      some [] ∧
    ((fun st => drain_log_queue_ns st T M)^[n] (start_async_runner_ns s)).live_log =
      some [] :=
  ⟨rfl, (drain_iter_empty T M n _ rfl rfl).1, (drain_iter_empty T M n _ rfl rfl).2⟩

/-- C7: a single drain pops at most `maxPull` items from the log queue
non-blockingly and appends them to the live log in exactly FIFO order
(followed by the tail truncation); with the queue filled by one stream
reader, the delivered batch is a prefix of the normalizer's output for
that stream, in exactly production order. -/
theorem drain_fifo_order (chunks : List (List Char)) (k : Nat) (s : RunState)
    (buf : List (List Char)) (T M : Nat)
    (hq : s.log_q = some (async_read_stream chunks k))
    (hv : s.live_log = some buf) :
    ∃ batch rest,
      batch = (async_read_stream chunks k).take M ∧
      batch.length ≤ M ∧
      batch ++ rest = async_read_stream chunks k ∧
      (drain_log_queue_ns s T M).log_q = some rest ∧
      (drain_log_queue_ns s T M).live_log = some (pyLastSlice (buf ++ batch) T) := by
  refine ⟨(async_read_stream chunks k).take M, (async_read_stream chunks k).drop M,
    rfl, ?_, List.take_append_drop _ _, ?_, ?_⟩
  · rw [List.length_take]
    exact Nat.min_le_left _ _
  · simp [drain_log_queue_ns, hq]
  · simp only [drain_log_queue_ns, hq, hv, Option.getD_some]
    rw [truncate_eq_pyLastSlice]

/-- Witness for C7 at a one-chunk stream. -/
theorem drain_fifo_order_witness :
    ∃ batch rest,
      batch = (async_read_stream [['h', 'i', '\n']] 1).take 500 ∧
      batch.length ≤ 500 ∧
      batch ++ rest = async_read_stream [['h', 'i', '\n']] 1 ∧
      (drain_log_queue_ns c7state 200 500).log_q = some rest ∧
      (drain_log_queue_ns c7state 200 500).live_log =
        some (pyLastSlice ([] ++ batch) 200) :=
  drain_fifo_order [['h', 'i', '\n']] 1 c7state [] 200 500 rfl rfl

/-- C8: every line returned by the normalizer is non-empty after whitespace
stripping and contains no newline or carriage-return character: carriage
returns are converted to line breaks before splitting, and blank or
whitespace-only segments are dropped. -/
theorem normalize_lines_nonblank_no_ctrl (chunk : List Char) :
    ∀ line ∈ normalize_linebreaks chunk,
      pyStrip line ≠ [] ∧ '\n' ∉ line ∧ '\r' ∉ line := by
  intro line hline
  by_cases hch : chunk = []
  · subst hch
    simp [normalize_linebreaks] at hline
  · simp only [normalize_linebreaks, if_neg hch] at hline
    rcases List.mem_map.mp hline with ⟨p, hpf, rfl⟩
    rcases List.mem_filter.mp hpf with ⟨hps, hpred⟩
    have hne : pyStrip p ≠ [] := by
      intro h0
      rw [h0] at hpred
      simp at hpred
    refine ⟨pyStrip_pyRstrip_ne_nil hne, ?_, ?_⟩
    · intro hmem
      exact splitOnNl_no_nl _ p hps (mem_pyRstrip hmem)
    · intro hmem
      exact no_cr_in_pipeline chunk (splitOnNl_subset _ p hps _ (mem_pyRstrip hmem))

/-- Witness for C8 at a chunk with a progress-bar carriage return. -/
theorem normalize_lines_nonblank_no_ctrl_witness :
    (['h', 'i'] ∈ normalize_linebreaks ['h', 'i', '\r', 'y', 'o']) ∧
    (pyStrip ['h', 'i'] ≠ [] ∧ '\n' ∉ (['h', 'i'] : List Char) ∧
      '\r' ∉ (['h', 'i'] : List Char)) :=
  ⟨by decide, normalize_lines_nonblank_no_ctrl ['h', 'i', '\r', 'y', 'o']
    ['h', 'i'] (by decide)⟩

/-- C9 counterexample: an OSC escape sequence (`ESC ] 0 ; T BEL`) is not
matched by `ANSI_ESCAPE` and survives normalization into the returned
line, so the claim that all escape sequences present in the input are
stripped is false. -/
theorem normalize_keeps_non_csi_escape_cex :
    normalize_linebreaks c9chunk = [c9chunk] ∧
    ¬ (∀ line ∈ normalize_linebreaks c9chunk, '\x1b' ∉ line) := by
  refine ⟨by decide, ?_⟩
  intro hall
  exact hall c9chunk (by decide) (by decide)

/-- C9 amended: the normalizer strips exactly the CSI escape sequences
matched by `ANSI_ESCAPE` (`ESC [ params intermediates final`); whenever
every `ESC` in the input begins such a sequence, no returned line contains
an `ESC`, hence no escape sequence.  Escape sequences of other shapes
(OSC, bare `ESC`) are not stripped and can survive into the output. -/
theorem normalize_strips_wellformed_csi (chunk : List Char)
    (hw : escAllCSI chunk = true) :
    ∀ line ∈ normalize_linebreaks chunk, '\x1b' ∉ line := by
  intro line hline hmem
  by_cases hch : chunk = []
  · subst hch
    simp [normalize_linebreaks] at hline
  · simp only [normalize_linebreaks, if_neg hch] at hline
    rcases List.mem_map.mp hline with ⟨p, hpf, rfl⟩
    rcases List.mem_filter.mp hpf with ⟨hps, _⟩
    exact no_esc_in_pipeline hw (splitOnNl_subset _ p hps _ (mem_pyRstrip hmem))

/-- Witness for C9 amended at a chunk with a color CSI sequence. -/
theorem normalize_strips_wellformed_csi_witness :
    escAllCSI c9ok = true ∧
    normalize_linebreaks c9ok = [['a', 'b']] ∧
    '\x1b' ∉ (['a', 'b'] : List Char) :=
  ⟨by decide, by decide,
   normalize_strips_wellformed_csi c9ok (by decide) ['a', 'b'] (by decide)⟩

/-- C10: drain and finalize for a namespace that was never started (no log
queue and no status queue stored) are safe no-ops: drain returns the state
unchanged, finalize returns `False` with no report and no state change,
and neither raises. -/
theorem unknown_namespace_noop (s : RunState) (T M : Nat)
    (hl : s.log_q = none) (hs : s.status_q = none) :
    drain_log_queue_ns s T M = s ∧
    check_status_and_finalize_ns s =
      { state := s, finalized := false, report := none } := by
  constructor
  · simp [drain_log_queue_ns, hl]
  · simp [check_status_and_finalize_ns, hs]

/-- Witness for C10 at the never-started state. -/
theorem unknown_namespace_noop_witness :
    emptyRun.log_q = none ∧ emptyRun.status_q = none ∧
    (drain_log_queue_ns emptyRun 200 500 = emptyRun ∧
     check_status_and_finalize_ns emptyRun =
       { state := emptyRun, finalized := false, report := none }) :=
  ⟨rfl, rfl, unknown_namespace_noop emptyRun 200 500 rfl rfl⟩

end BearHub
